import Mathlib

/-!
# Verification of the Transaction Import & Settlement Pipeline

Shallow embedding of the core logic of `src/app.py` (a Streamlit app that
imports Monobank statements and uploads them as Spliit expenses), together
with theorems settling the frozen claims about it.

Conventions of the embedding:
* Dates are modelled as natural numbers (days since an arbitrary epoch);
  Python `date` subtraction `(a - b).days` becomes `a - b` on `Nat` under
  the invariants established where it is used.
* Money amounts are modelled as rationals (`ℚ`); the bank feed reports
  integer minor units (`Int`).
* The remote services (Monobank `get_statements`, Spliit `add_expense`)
  are modelled as oracle parameters: a pure function giving the statements
  of a window, and a pure function giving the outcome of one upload call.
* Streamlit session state becomes explicit arguments; `st.error` /
  `st.warning` side effects are dropped, only control flow is kept.
-/

/-- A raw statement entry as returned by the bank statement service
(`s` in the normalization loop of `src/app.py`, lines 406-421).
Python dict access `s.get(key, default)` is mirrored by `Option` fields
(`none` = key absent) read with the same defaults. -/
structure RawStmt where
  id : Option String := none
  amount : Int := 0
  description : Option String := none
  time : Nat := 0
  deriving DecidableEq

/-- A transaction in the app's canonical format (the dicts built at
`src/app.py` lines 413-421 and consumed by the upload path).  The
`mcc`/`category` fields resolved through the external MCC lookup
collaborator are not modelled: no claim depends on them. -/
structure Tx where
  id : Option String := none
  amount : ℚ := 0
  name : String := ""
  selected : Bool := false
  time : Nat := 0
  deriving DecidableEq

/-- Normalization of one raw statement entry (`src/app.py` lines 407-421):
`amount = abs(s.get("amount", 0)) / 100.0`, description defaulting to
`"N/A"`, `selected = False`, date from the source timestamp. -/
def normalizeStmt (s : RawStmt) : Tx :=
  { id := s.id
    amount := (s.amount.natAbs : ℚ) / 100
    name := s.description.getD "N/A"
    selected := false
    time := s.time }

/-- The expense title built by `upload_transaction_to_spliit`
(`src/app.py` line 56):
`f"{title} mono-{transaction_id}" if transaction_id else title`.
Python truthiness: both `None` and the empty string count as "no id". -/
def expenseTitle (title : String) (transaction_id : Option String) : String :=
  match transaction_id with
  | none => title
  | some t => if t = "" then title else title ++ " mono-" ++ t

/-- Outcome of one `upload_transaction_to_spliit` call as observed by the
batch loop (`src/app.py` lines 64-74): the parsed response contains an
`expenseId` (success), or parsing finds none / fails (the function
returns `False`), or the call raises. -/
inductive TxOutcome where
  | success
  | invalidResponse
  | raised (msg : String)
  deriving DecidableEq

/-- `upload_transactions_batch` (`src/app.py` lines 76-97): iterate over
the transactions, counting successes; a `False` return or an exception is
reported per item and the loop continues.  Returns the success count
together with the list of transactions for which an upload call was
attempted, in order (in the source every iteration performs exactly one
call to `upload_transaction_to_spliit`). -/
def upload_transactions_batch (outcome : Tx → TxOutcome) (txs : List Tx) :
    Nat × List Tx :=
  txs.foldl
    (fun acc t =>
      ((match outcome t with
        | .success => acc.1 + 1
        | .invalidResponse => acc.1
        | .raised _ => acc.1),
       acc.2 ++ [t]))
    (0, [])

/-- `get_participant_info` (`src/app.py` lines 39-47): map each
`(name, participant_id)` pair to `(participant_id, share * 100)` basis
points.  The shares stored in session state are integers (the share
widgets have integer value/step), so Python `int(share * 100)` is exactly
`share * 100`. -/
def get_participant_info (participants : List (String × String))
    (shares : String → Nat) : List (String × Nat) :=
  participants.map (fun p => (p.2, shares p.1 * 100))

/-- Python `str.strip()`: drop whitespace from both ends. -/
def pyStrip (s : String) : String :=
  ⟨((s.data.dropWhile Char.isWhitespace).reverse.dropWhile
      Char.isWhitespace).reverse⟩

/-- The validity filter of `upload_to_spliit` (`src/app.py` lines 116-119):
keep transactions whose stripped name is non-empty and whose amount is
positive. -/
def isValidTx (t : Tx) : Bool :=
  pyStrip t.name != "" && decide (0 < t.amount)

/-- `upload_to_spliit` (`src/app.py` lines 99-140).  Returns the boolean
result together with the list of transactions for which an upload call
was attempted.  The guards, in source order: no active client, no
selected participant, no valid transactions.  Note that the participant
share map is used only to build `paid_for`; its sum is never inspected on
this path. -/
def upload_to_spliit (hasClient hasPayer : Bool)
    (participants : List (String × String)) (shares : String → Nat)
    (outcome : Tx → TxOutcome) (txs : List Tx) : Bool × List Tx :=
  if !hasClient then (false, [])
  else if !hasPayer then (false, [])
  else
    let paidFor := get_participant_info participants shares
    let valid := txs.filter isValidTx
    if valid.isEmpty then (false, [])
    else
      let r := upload_transactions_batch outcome valid
      (decide (0 < r.1), r.2)

/-- Default share initialization on group fetch (`src/app.py` lines
209-217): `equal_share = int(100 / N)` to every participant but the last,
and `100 - equal_share * (N - 1)` to the last. -/
def defaultShares (names : List String) : List (String × Nat) :=
  let equalShare := 100 / names.length
  let lastShare := 100 - equalShare * (names.length - 1)
  names.dropLast.map (fun nm => (nm, equalShare)) ++
    (names.getLast?.map (fun nm => (nm, lastShare))).toList

/-- How the fetch loop of `src/app.py` lines 354-400 terminated:
`normal` is the `current_from_date <= start_date` break (line 382-383),
`errorBreak` is the generic exception branch (lines 398-400). -/
inductive TermKind where
  | normal
  | errorBreak
  deriving DecidableEq

/-- The progress computation of `src/app.py` lines 376-378:
`days_processed / total_days` with `total_days = (end - start).days` and
`days_processed = (end - current_from).days`.  When `total_days` is zero
Python raises `ZeroDivisionError`, modelled as `none`. -/
def progressOf (startD endD currentFrom : Nat) : Option ℚ :=
  if endD - startD = 0 then none
  else some (((endD - currentFrom : Nat) : ℚ) / ((endD - startD : Nat) : ℚ))

/-- One run of the backward-chunking `while` loop (`src/app.py` lines
354-400) along its non-rate-limited path, with the remote
`get_statements` modelled as the oracle `src : window start → window end →
statements`.  Arguments: fixed `startD`/`endD` from the date inputs, and
the moving `cursor` (= `current_to_date`).  Per iteration:
`current_from_date = max(start_date, current_to_date - 30 days)`, one
remote call, accumulate its statements, compute the progress fraction
(a `ZeroDivisionError` there is caught by the generic `except` branch,
which breaks out of the loop), break if `current_from_date <= start_date`,
else continue from `current_from_date - 1 day`.  Returns the accumulated
statements, the list of `(from, to)` windows called, and how the loop
terminated. -/
def fetchLoop (src : Nat → Nat → List RawStmt) (startD endD : Nat)
    (cursor : Nat) : List RawStmt × List (Nat × Nat) × TermKind :=
  let c := max startD (cursor - 30)
  let got := src c cursor
  match progressOf startD endD c with
  | none => (got, [(c, cursor)], TermKind.errorBreak)
  | some _ =>
    if c ≤ startD then (got, [(c, cursor)], TermKind.normal)
    else
      let rest := fetchLoop src startD endD (c - 1)
      (got ++ rest.1, (c, cursor) :: rest.2.1, rest.2.2)
termination_by cursor
decreasing_by omega

/-- The range-validation error of `src/app.py` lines 345-346: the fetch is
refused before any remote call when `start_date > end_date`. -/
inductive FetchError where
  | invalidRange
  deriving DecidableEq

/-- The `fetch_statements_button` handler (`src/app.py` lines 344-400):
reject an inverted range before calling out, otherwise run the chunking
loop starting from `current_to_date = end_date`. -/
def fetchStatements (src : Nat → Nat → List RawStmt) (startD endD : Nat) :
    Except FetchError (List RawStmt × List (Nat × Nat) × TermKind) :=
  if endD < startD then .error .invalidRange
  else .ok (fetchLoop src startD endD endD)

/-- The windows actually requested from the remote service by a fetch
invocation (empty when the range is rejected: the error branch returns
before the loop). -/
def fetchWindows (src : Nat → Nat → List RawStmt) (startD endD : Nat) :
    List (Nat × Nat) :=
  match fetchStatements src startD endD with
  | .error _ => []
  | .ok r => r.2.1

/-- The fetch pipeline including the normalization pass of `src/app.py`
lines 406-421, which runs on whatever `all_statements` holds after the
loop, regardless of how it terminated. -/
def runFetch (src : Nat → Nat → List RawStmt) (startD endD : Nat) :
    Except FetchError (List Tx × List (Nat × Nat) × TermKind) :=
  match fetchStatements src startD endD with
  | .error er => .error er
  | .ok r => .ok (r.1.map normalizeStmt, r.2.1, r.2.2)

/-- Outcome of one remote `get_statements` call as observed by the fetch
loop (`src/app.py` lines 363-400): a statement list, the distinguishable
`monobank.TooManyRequests` signal, or any other exception. -/
inductive CallOutcome where
  | ok (stmts : List RawStmt)
  | tooMany
  | err (msg : String)
  deriving DecidableEq

/-- The observable state of one fetch invocation, for the small-step view
of the loop of `src/app.py` lines 354-400: the moving `current_to_date`,
the `all_statements` accumulator, the number of remote calls made so far,
the total time slept in cooldowns (in seconds), and whether (and how) the
loop has terminated. -/
structure FetchSt where
  cursorEnd : Nat
  acc : List RawStmt
  calls : Nat
  slept : Nat
  finished : Option TermKind
  deriving DecidableEq

/-- One iteration of the fetch `while` loop (`src/app.py` lines 354-400)
as a step function, with the remote call's outcome given by an oracle
indexed by the number of calls made so far.  The branches, in source
order: on `TooManyRequests` sleep 5 seconds and `continue` (lines
393-396) — the cursor is unchanged, so the same window is retried; on any
other exception record the generic error break (lines 398-400); on
success accumulate, then the progress computation (`ZeroDivisionError`
lands in the generic `except` branch), the `current_from_date <=
start_date` break, or the advance to `current_from_date - 1 day` plus the
5 × 1-second inter-call cooldown (lines 385-391). -/
def fetchStep (oracle : Nat → CallOutcome) (startD endD : Nat)
    (st : FetchSt) : FetchSt :=
  match st.finished with
  | some _ => st
  | none =>
    let c := max startD (st.cursorEnd - 30)
    match oracle st.calls with
    | .tooMany => { st with calls := st.calls + 1, slept := st.slept + 5 }
    | .err _ =>
        { st with calls := st.calls + 1, finished := some TermKind.errorBreak }
    | .ok got =>
      let st1 := { st with calls := st.calls + 1, acc := st.acc ++ got }
      match progressOf startD endD c with
      | none => { st1 with finished := some TermKind.errorBreak }
      | some _ =>
        if c ≤ startD then { st1 with finished := some TermKind.normal }
        else
          { st1 with cursorEnd := c - 1, slept := st1.slept + 5 }

/-! ## Helper lemmas -/

theorem upload_batch_foldl (outcome : Tx → TxOutcome) (txs : List Tx) :
    ∀ (n : Nat) (l : List Tx),
      List.foldl
        (fun acc t =>
          ((match outcome t with
            | TxOutcome.success => acc.1 + 1
            | TxOutcome.invalidResponse => acc.1
            | TxOutcome.raised _ => acc.1),
           acc.2 ++ [t])) (n, l) txs
        = (n + txs.countP (fun t => decide (outcome t = TxOutcome.success)),
           l ++ txs) := by
  induction txs with
  | nil => intro n l; simp
  | cons t rest ih =>
    intro n l
    simp only [List.foldl_cons, List.countP_cons]
    rw [ih]
    cases h : outcome t
    case success =>
      simp only [h, Prod.mk.injEq]
      refine ⟨?_, by simp⟩
      rw [if_pos (by simp)]
      ring
    case invalidResponse =>
      simp only [h, Prod.mk.injEq]
      refine ⟨?_, by simp⟩
      rw [if_neg (by simp)]
      ring
    case raised msg =>
      simp only [h, Prod.mk.injEq]
      refine ⟨?_, by simp⟩
      rw [if_neg (by simp)]
      ring

/-- What `upload_transactions_batch` computes: every transaction of the
input is attempted, in order, and the returned count is the number of
successful upload calls. -/
theorem upload_batch_spec (outcome : Tx → TxOutcome) (txs : List Tx) :
    upload_transactions_batch outcome txs
      = (txs.countP (fun t => decide (outcome t = TxOutcome.success)), txs) := by
  unfold upload_transactions_batch
  rw [upload_batch_foldl]
  simp

theorem sum_map_const {α : Type} (l : List α) (c : Nat) :
    (l.map (fun _ => c)).sum = l.length * c := by
  induction l with
  | nil => simp
  | cons a t ih => simp [ih, Nat.succ_mul]; ring

theorem sum_map_mul_hundred (l : List Nat) :
    (l.map (fun x => x * 100)).sum = l.sum * 100 := by
  induction l with
  | nil => simp
  | cons a t ih => simp [ih]; ring

/-! ## Claim theorems -/

/-- C6: for every batch of transactions, the per-transaction uploads are
independent — whatever the outcome of each call (including a raised
transport error or an unparseable response), every transaction of the
batch is attempted, in order, and the returned count is exactly the
number of successful uploads. -/
theorem upload_batch_independent (outcome : Tx → TxOutcome) (txs : List Tx) :
    (upload_transactions_batch outcome txs).2 = txs ∧
    (upload_transactions_batch outcome txs).1 =
      txs.countP (fun t => decide (outcome t = TxOutcome.success)) := by
  rw [upload_batch_spec]
  exact ⟨rfl, rfl⟩

/-- C9: an uploaded transaction with a (non-empty) external id gets a
ledger title equal to its description suffixed with the stable
`" mono-<externalId>"` marker, so the title contains both the description
and the external id; with no external id the title is the description
alone. -/
theorem expense_title_marker (description tid : String) (h : tid ≠ "") :
    expenseTitle description (some tid) = description ++ " mono-" ++ tid ∧
    expenseTitle description none = description := by
  simp [expenseTitle, h]

theorem expense_title_marker_wit :
    expenseTitle "Coffee" (some "12345") = "Coffee" ++ " mono-" ++ "12345" ∧
    expenseTitle "Coffee" none = "Coffee" :=
  expense_title_marker "Coffee" "12345" (by decide)

/-- C4 counterexample: a raw entry whose `amount` field is zero (the
normalizer's own default for a missing amount) normalizes to amount `0`,
which is not strictly greater than `0` — refuting "always strictly
greater than 0 for any input". -/
theorem normalize_zero_amount :
    (normalizeStmt { amount := 0 }).amount = 0 ∧
    ¬ (0 < (normalizeStmt { amount := 0 }).amount) := by
  constructor
  · simp [normalizeStmt]
  · simp [normalizeStmt]

/-- C4 (amended): the normalized amount always equals
`abs(raw.amount) / 100`, and it is strictly positive whenever the raw
amount is non-zero (e.g. raw `-15000` minor units normalizes to
`150.00`); a zero raw amount normalizes to `0`. -/
theorem normalize_abs_amount (s : RawStmt) (h : s.amount ≠ 0) :
    (normalizeStmt s).amount = (s.amount.natAbs : ℚ) / 100 ∧
    0 < (normalizeStmt s).amount := by
  refine ⟨rfl, ?_⟩
  have h1 : 0 < s.amount.natAbs := Int.natAbs_pos.mpr h
  have h2 : (0 : ℚ) < (s.amount.natAbs : ℚ) := by exact_mod_cast h1
  show (0 : ℚ) < (s.amount.natAbs : ℚ) / 100
  exact div_pos h2 (by norm_num)

theorem normalize_abs_amount_wit :
    ((-15000 : Int) ≠ 0) ∧
    (normalizeStmt { amount := -15000 }).amount
        = ((Int.natAbs (-15000) : ℚ) / 100) ∧
    0 < (normalizeStmt { amount := -15000 }).amount ∧
    (normalizeStmt { amount := -15000 }).amount = 150 := by
  refine ⟨by decide, (normalize_abs_amount _ (by decide)).1,
    (normalize_abs_amount _ (by decide)).2, ?_⟩
  show ((Int.natAbs (-15000) : ℚ) / 100) = 150
  norm_num

/-- C5: for any share map of integer percents in `[0,100]` whose values
over the group's participants sum to exactly 100, `get_participant_info`
multiplies each participant's percent by 100 exactly (basis points), and
the resulting weights sum to exactly 10000. -/
theorem paid_for_weights (participants : List (String × String))
    (shares : String → Nat)
    (hrange : ∀ p ∈ participants, shares p.1 ≤ 100)
    (hsum : (participants.map (fun p => shares p.1)).sum = 100) :
    get_participant_info participants shares
        = participants.map (fun p => (p.2, shares p.1 * 100)) ∧
    ((get_participant_info participants shares).map Prod.snd).sum = 10000 := by
  refine ⟨rfl, ?_⟩
  have h1 : ((participants.map (fun p => (p.2, shares p.1 * 100))).map Prod.snd)
      = (participants.map (fun p => shares p.1)).map (fun x => x * 100) := by
    simp [List.map_map, Function.comp]
  show ((participants.map (fun p => (p.2, shares p.1 * 100))).map Prod.snd).sum
      = 10000
  rw [h1, sum_map_mul_hundred, hsum]

theorem paid_for_weights_wit :
    get_participant_info [("A", "pa"), ("B", "pb")]
        (fun n => if n = "A" then 60 else 40)
      = ([("A", "pa"), ("B", "pb")] : List (String × String)).map
          (fun p => (p.2, (if p.1 = "A" then 60 else 40) * 100)) ∧
    ((get_participant_info [("A", "pa"), ("B", "pb")]
        (fun n => if n = "A" then 60 else 40)).map Prod.snd).sum = 10000 :=
  paid_for_weights _ _ (by decide) (by decide)

/-- C7: an inverted range (`startDate > endDate`) is rejected with the
range error before the chunking loop runs: the fetch returns the error
and the list of requested windows is empty (zero remote calls). -/
theorem fetch_rejects_inverted_range (src : Nat → Nat → List RawStmt)
    (startD endD : Nat) (h : endD < startD) :
    fetchStatements src startD endD = Except.error FetchError.invalidRange ∧
    fetchWindows src startD endD = [] := by
  constructor
  · simp [fetchStatements, h]
  · simp [fetchWindows, fetchStatements, h]

theorem fetch_rejects_inverted_range_wit :
    fetchStatements (fun _ _ => []) 5 3
        = Except.error FetchError.invalidRange ∧
    fetchWindows (fun _ _ => []) 5 3 = [] :=
  fetch_rejects_inverted_range _ 5 3 (by decide)

/-- C1 (amended): `upload_to_spliit` performs no share-sum validation.
With an active group and a selected payer, even when the participant
shares do not sum to 100 the upload proceeds: an upload call is attempted
for exactly the valid transactions (non-blank name, positive amount).
The share sum is only reported as a UI warning outside the upload path,
and no `AllocationInvalid`-style failure exists in the code. -/
theorem upload_ignores_share_sum (participants : List (String × String))
    (shares : String → Nat) (outcome : Tx → TxOutcome) (txs : List Tx)
    (h : (participants.map (fun p => shares p.1)).sum ≠ 100) :
    (upload_to_spliit true true participants shares outcome txs).2 =
      txs.filter isValidTx := by
  unfold upload_to_spliit
  by_cases he : (txs.filter isValidTx).isEmpty
  · have hf : txs.filter isValidTx = [] := List.isEmpty_iff.mp he
    simp [hf]
  · simp [he, upload_batch_spec]

theorem upload_ignores_share_sum_wit :
    (upload_to_spliit true true [("A", "pa"), ("B", "pb")]
        (fun n => if n = "A" then 50 else 49) (fun _ => TxOutcome.success)
        [{ name := "Coffee", amount := 5 }]).2 =
      [({ name := "Coffee", amount := 5 } : Tx)].filter isValidTx :=
  upload_ignores_share_sum _ _ _ _ (by decide)

/-- C1 counterexample: with an active group, a selected payer, and a
share map summing to 99, the upload is not refused — one upload call is
attempted (for the single valid transaction) and the invocation reports
success, refuting "fails and makes zero upload calls". -/
theorem upload_proceeds_on_sum_99 :
    ((([("A", "pa"), ("B", "pb")] : List (String × String)).map
        (fun p => (if p.1 = "A" then 50 else 49 : Nat))).sum = 99) ∧
    (upload_to_spliit true true [("A", "pa"), ("B", "pb")]
        (fun n => if n = "A" then 50 else 49) (fun _ => TxOutcome.success)
        [{ name := "Coffee", amount := 5 }]).2.length = 1 ∧
    (upload_to_spliit true true [("A", "pa"), ("B", "pb")]
        (fun n => if n = "A" then 50 else 49) (fun _ => TxOutcome.success)
        [{ name := "Coffee", amount := 5 }]).1 = true := by
  refine ⟨by decide, ?_, ?_⟩ <;> decide

/-- C2 counterexample: with 6 participants the default allocation is
five shares of `16 = floor(100/6)` and one share of `20`, so two default
shares differ by `4 > 1` — refuting "no participant's default share
differs from another's by more than 1". -/
theorem default_shares_not_within_one :
    defaultShares ["a", "b", "c", "d", "e", "f"] =
      [("a", 16), ("b", 16), ("c", 16), ("d", 16), ("e", 16), ("f", 20)] ∧
    ("a", 16) ∈ defaultShares ["a", "b", "c", "d", "e", "f"] ∧
    ("f", 20) ∈ defaultShares ["a", "b", "c", "d", "e", "f"] ∧
    16 + 1 < 20 := by
  refine ⟨by decide, by decide, by decide, by decide⟩

/-- C2 (amended): for every non-empty participant list the default
allocation assigns non-negative integer percents summing to exactly 100:
every share is either `floor(100/N)` or (for the last participant)
`floor(100/N) + 100 mod N`.  The two values can differ by more than 1
(they differ by `100 mod N`, e.g. 4 for `N = 6`). -/
theorem default_shares_sum (names : List String) (p : String × Nat)
    (h : names ≠ []) (hp : p ∈ defaultShares names) :
    ((defaultShares names).map Prod.snd).sum = 100 ∧
    (p.2 = 100 / names.length ∨
      p.2 = 100 / names.length + 100 % names.length) := by
  have hn : 1 ≤ names.length := List.length_pos.mpr h
  have h0 := Nat.div_add_mod 100 names.length
  have hsub : (names.length - 1) * (100 / names.length)
      = names.length * (100 / names.length) - 100 / names.length :=
    Nat.sub_one_mul _ _
  have hle : 100 / names.length ≤ names.length * (100 / names.length) :=
    Nat.le_mul_of_pos_left _ hn
  have hlast := List.getLast?_eq_getLast names h
  simp only [defaultShares, hlast, Option.map_some', Option.toList_some]
    at hp ⊢
  constructor
  · simp only [List.map_append, List.map_map, List.map_cons, List.map_nil,
      List.sum_append, List.sum_cons, List.sum_nil]
    have hc : (names.dropLast.map
        (Prod.snd ∘ fun nm => (nm, 100 / names.length))).sum
        = names.dropLast.length * (100 / names.length) := by
      have he : (Prod.snd ∘ fun nm : String => (nm, 100 / names.length))
          = fun _ => 100 / names.length := by
        funext nm; rfl
      rw [he, sum_map_const]
    rw [hc, List.length_dropLast]
    have hcm : 100 / names.length * (names.length - 1)
        = (names.length - 1) * (100 / names.length) := Nat.mul_comm _ _
    rw [hcm, hsub]
    generalize hE : 100 / names.length = E at h0 hle ⊢
    generalize hX : names.length * E = X at h0 hle ⊢
    omega
  · rcases List.mem_append.mp hp with hmem | hmem
    · obtain ⟨nm, hnm, hpe⟩ := List.mem_map.mp hmem
      left; rw [← hpe]
    · have hpe : p = (names.getLast h,
          100 - 100 / names.length * (names.length - 1)) := by
        simpa using hmem
      right
      rw [hpe]
      show 100 - 100 / names.length * (names.length - 1)
          = 100 / names.length + 100 % names.length
      have hcm : 100 / names.length * (names.length - 1)
          = (names.length - 1) * (100 / names.length) := Nat.mul_comm _ _
      rw [hcm, hsub]
      generalize hE : 100 / names.length = E at h0 hle ⊢
      generalize hX : names.length * E = X at h0 hle ⊢
      omega

theorem default_shares_sum_wit :
    ((defaultShares ["a", "b", "c"]).map Prod.snd).sum = 100 ∧
    ((("c", 34) : String × Nat).2 = 100 / (["a", "b", "c"] : List String).length ∨
      (("c", 34) : String × Nat).2 = 100 / (["a", "b", "c"] : List String).length
        + 100 % (["a", "b", "c"] : List String).length) :=
  default_shares_sum ["a", "b", "c"] ("c", 34) (by decide) (by decide)

theorem progressOf_eq_none (s e c : Nat) :
    progressOf s e c = none ↔ e - s = 0 := by
  unfold progressOf
  split <;> simp_all

/-- The chunking loop started at `cursor` (with `s ≤ cursor ≤ e`) issues
one call per 31-day window: `ceil((cursor - s + 1) / 31)` calls. -/
theorem fetchLoop_windows_length (src : Nat → Nat → List RawStmt)
    (s e : Nat) : ∀ cursor, s ≤ cursor → cursor ≤ e →
    (fetchLoop src s e cursor).2.1.length = (cursor - s + 31) / 31 := by
  intro cursor
  induction cursor using Nat.strong_induction_on with
  | _ cursor ih =>
    intro h1 h2
    rw [fetchLoop]
    cases hp : progressOf s e (max s (cursor - 30)) with
    | none =>
      have he : e - s = 0 := (progressOf_eq_none _ _ _).mp hp
      have hc : cursor = s := by omega
      simp only [List.length_cons, List.length_nil]
      omega
    | some q =>
      by_cases hcs : max s (cursor - 30) ≤ s
      · simp only [hcs, if_true, List.length_cons, List.length_nil]
        omega
      · simp only [hcs, if_false, List.length_cons]
        rw [ih (max s (cursor - 30) - 1) (by omega) (by omega) (by omega)]
        omega

/-- Each date `d` lies in exactly one requested window when
`s ≤ d ≤ cursor`, and in none otherwise: the windows tile
`[s, cursor]` without gap or overlap. -/
theorem fetchLoop_windows_cover (src : Nat → Nat → List RawStmt)
    (s e d : Nat) : ∀ cursor, s ≤ cursor → cursor ≤ e →
    (fetchLoop src s e cursor).2.1.countP
        (fun w => decide (w.1 ≤ d) && decide (d ≤ w.2))
      = if s ≤ d ∧ d ≤ cursor then 1 else 0 := by
  intro cursor
  induction cursor using Nat.strong_induction_on with
  | _ cursor ih =>
    intro h1 h2
    rw [fetchLoop]
    cases hp : progressOf s e (max s (cursor - 30)) with
    | none =>
      have he : e - s = 0 := (progressOf_eq_none _ _ _).mp hp
      have hm : max s (cursor - 30) = s := by omega
      rw [hm]
      simp only [List.countP_cons, List.countP_nil, Bool.and_eq_true,
        decide_eq_true_eq]
      by_cases hd : s ≤ d ∧ d ≤ cursor
      · rw [if_pos hd]
      · rw [if_neg hd]
    | some q =>
      by_cases hcs : max s (cursor - 30) ≤ s
      · rw [if_pos hcs]
        have hm : max s (cursor - 30) = s := by omega
        rw [hm]
        simp only [List.countP_cons, List.countP_nil, Bool.and_eq_true,
          decide_eq_true_eq]
        by_cases hd : s ≤ d ∧ d ≤ cursor
        · rw [if_pos hd]
        · rw [if_neg hd]
      · rw [if_neg hcs]
        have hs : s < cursor - 30 := by omega
        have hm : max s (cursor - 30) = cursor - 30 := by omega
        rw [hm] at hcs ⊢
        rw [List.countP_cons]
        rw [ih (cursor - 30 - 1) (by omega) (by omega) (by omega)]
        simp only [Bool.and_eq_true, decide_eq_true_eq]
        by_cases hh : cursor - 30 ≤ d ∧ d ≤ cursor
        · rw [if_pos hh]
          by_cases ht : s ≤ d ∧ d ≤ cursor - 30 - 1
          · rw [if_pos ht, if_pos (by omega)]
            omega
          · rw [if_neg ht, if_pos (by omega)]
        · rw [if_neg hh]
          by_cases ht : s ≤ d ∧ d ≤ cursor - 30 - 1
          · rw [if_pos ht, if_pos (by omega)]
          · rw [if_neg ht, if_neg (by omega)]

/-- C3 (amended): over a valid range of `D = endDate - startDate + 1`
inclusive days the loop issues exactly `ceil(D/31)` remote calls — each
window spans 31 days, since `cursorStart = cursorEnd - 30 days` — and the
requested windows exactly tile `[startDate, endDate]`: every date of the
range is requested in exactly one window and no date outside it is
requested. -/
theorem fetch_windows_exact_cover (src : Nat → Nat → List RawStmt)
    (s e d : Nat) (h : s ≤ e) :
    (fetchWindows src s e).length = (e - s + 31) / 31 ∧
    (fetchWindows src s e).countP
        (fun w => decide (w.1 ≤ d) && decide (d ≤ w.2))
      = if s ≤ d ∧ d ≤ e then 1 else 0 := by
  have hne : ¬ (e < s) := by omega
  have hw : fetchWindows src s e = (fetchLoop src s e e).2.1 := by
    simp [fetchWindows, fetchStatements, hne]
  rw [hw]
  exact ⟨fetchLoop_windows_length src s e e h (le_refl e),
    fetchLoop_windows_cover src s e d e h (le_refl e)⟩

theorem fetch_windows_exact_cover_wit :
    (fetchWindows (fun _ _ => []) 0 40).length = (40 - 0 + 31) / 31 ∧
    (fetchWindows (fun _ _ => []) 0 40).countP
        (fun w => decide (w.1 ≤ 17) && decide (17 ≤ w.2))
      = if 0 ≤ 17 ∧ 17 ≤ 40 then 1 else 0 :=
  fetch_windows_exact_cover (fun _ _ => []) 0 40 17 (by decide)

/-- C3 counterexample: for the range `[0, 61]` (difference 61 days, 62
inclusive days) the loop issues 2 calls — the 31-day windows `(31, 61)`
and `(0, 30)` — while `ceil(61/30) = ceil(62/30) = 3`, refuting the
`ceil(R/30)` call count under either reading of `R`. -/
theorem fetch_calls_two_not_three :
    fetchWindows (fun _ _ => []) 0 61 = [(31, 61), (0, 30)] ∧
    (fetchWindows (fun _ _ => []) 0 61).length = 2 ∧
    (2 : Nat) ≠ (61 + 29) / 30 ∧ (2 : Nat) ≠ (62 + 29) / 30 := by
  have h : fetchWindows (fun _ _ => []) 0 61 = [(31, 61), (0, 30)] := by
    have hok : fetchStatements (fun _ _ => []) 0 61
        = Except.ok (fetchLoop (fun _ _ => []) 0 61 61) := by
      simp [fetchStatements]
    rw [fetchWindows, hok]
    rw [fetchLoop]
    norm_num [progressOf]
    rw [fetchLoop]
    norm_num [progressOf]
  refine ⟨h, by rw [h]; rfl, by norm_num, by norm_num⟩

/-- C10: for a one-day range (`startDate = endDate`) the first window
call succeeds and its statements are accumulated, but the progress
computation divides by a zero `total_days`, so the loop terminates
through the generic error branch rather than the normal
`cursorStart <= startDate` break; the fetched statements are nevertheless
retained and normalized by the pipeline. -/
theorem one_day_range_division_error (src : Nat → Nat → List RawStmt)
    (d : Nat) :
    runFetch src d d
      = Except.ok ((src d d).map normalizeStmt, [(d, d)],
          TermKind.errorBreak) := by
  have hloop : fetchLoop src d d d
      = (src d d, [(d, d)], TermKind.errorBreak) := by
    rw [fetchLoop]
    have hm : max d (d - 30) = d := by omega
    rw [hm]
    have hp : progressOf d d d = none := by simp [progressOf]
    rw [hp]
  simp [runFetch, fetchStatements, hloop]

/-- C8: whenever the state is not finished and the next remote call
signals "too many requests", one step of the fetch loop sleeps exactly 5
seconds and leaves the cursor unchanged — the same window is retried —
and the loop is not marked failed.  Moreover, under an oracle that
rate-limits forever, after any number `n` of steps the loop is still
unfinished with the same cursor and accumulator, having slept `5 * n`
seconds: the retry is unbounded and a rate-limit signal is never
surfaced as a hard failure by itself. -/
theorem rate_limit_retries_same_window (oracle : Nat → CallOutcome)
    (s e n : Nat) (st : FetchSt) (h1 : st.finished = none)
    (h2 : oracle st.calls = CallOutcome.tooMany) :
    fetchStep oracle s e st
        = { st with calls := st.calls + 1, slept := st.slept + 5 } ∧
    (fetchStep (fun _ => CallOutcome.tooMany) s e)^[n] st
        = { st with calls := st.calls + n, slept := st.slept + 5 * n } := by
  obtain ⟨ce, acc, calls, slept, fin⟩ := st
  simp only at h1 h2
  subst h1
  constructor
  · simp [fetchStep, h2]
  · induction n with
    | zero => simp
    | succ k ihk =>
      rw [Function.iterate_succ_apply', ihk]
      simp [fetchStep, FetchSt.mk.injEq]
      omega

theorem rate_limit_retries_same_window_wit :
    fetchStep (fun _ => CallOutcome.tooMany) 0 200
        ⟨100, [], 0, 0, none⟩ = ⟨100, [], 1, 5, none⟩ ∧
    (fetchStep (fun _ => CallOutcome.tooMany) 0 200)^[3]
        ⟨100, [], 0, 0, none⟩ = ⟨100, [], 3, 15, none⟩ := by
  have h := rate_limit_retries_same_window (fun _ => CallOutcome.tooMany)
    0 200 3 ⟨100, [], 0, 0, none⟩ rfl rfl
  simpa using h
